import Mathlib

/-!
Verification development for the SRS structural validator
(`skills/write-srs-29148/scripts/validate_srs.py`).

The validator is a single-pass command-line tool over a directory of
markdown files.  The embedding below translates the Python source into
executable Lean definitions:

* file contents are `Option String` (`none` models a file whose content
  cannot be read; `read_text` turns this into `Except Unit String`, and
  every check that reads files propagates the error exactly as an
  uncaught Python exception would);
* `str.splitlines`, substring containment (`in`), and the three regular
  expressions of the source (`\b(IR|FR|DR|NFR|CR)-\d{3}\b`,
  `\b(shall|should|may)\b` with IGNORECASE, and
  `^\|\s*0\.1\s*\|` with MULTILINE) are implemented as character-list
  scanners; word characters are modelled as ASCII `[A-Za-z0-9_]`, which
  matches the Python semantics on the ASCII documents the tool targets;
* the `CATEGORY_PREFIX` dict of the source is the total function
  `categoryPrefixMap` (the default branch is unreachable because the
  regex only ever produces the five listed categories);
* `sorted` over `pathlib.Path` values of a single directory orders by
  file name, modelled with a stable insertion sort by name.
-/

/-- Word character test for the `\b` boundaries and `\w` of the source
regexes, in their ASCII reading: letters, digits, underscore. -/
def isWordChar (c : Char) : Bool :=
  c.isAlphanum || c == '_'

/-- Characters that `str.splitlines` treats as line boundaries. -/
def isLineBreak (c : Char) : Bool :=
  c == '\n' || c == '\r' || c == '\x0b' || c == '\x0c' ||
  c == '\x1c' || c == '\x1d' || c == '\x1e' || c == '\x85' ||
  c == '\u2028' || c == '\u2029'

/-- Worker for `splitlines`: `acc` holds the reversed characters of the
line being built.  `\r\n` counts as a single boundary, and a trailing
line without a final boundary is still emitted (Python semantics). -/
def splitlinesAux : List Char → List Char → List String
  | acc, [] => if acc.isEmpty then [] else [String.mk acc.reverse]
  | acc, '\r' :: '\n' :: rest => String.mk acc.reverse :: splitlinesAux [] rest
  | acc, c :: rest =>
    if isLineBreak c then String.mk acc.reverse :: splitlinesAux [] rest
    else splitlinesAux (c :: acc) rest

/-- Model of Python `str.splitlines()`. -/
def splitlines (s : String) : List String :=
  splitlinesAux [] s.data

/-- Containment of `needle` as a contiguous run inside `hay`
(model of Python `needle in hay` on strings). -/
def listSub (needle : List Char) : List Char → Bool
  | [] => needle.isEmpty
  | c :: rest => needle.isPrefixOf (c :: rest) || listSub needle rest

/-- Model of Python `needle in hay` for strings. -/
def strContains (hay needle : String) : Bool :=
  listSub needle.data hay.data

/-- Model of Python `s.startswith(p)`. -/
def strStartsWith (s p : String) : Bool :=
  p.data.isPrefixOf s.data

/-- Model of Python `s.lower()` in its ASCII reading. -/
def strToLower (s : String) : String :=
  String.mk (s.data.map Char.toLower)

/-- Model of Python `"\n".join(lines)`. -/
def joinNl : List String → String
  | [] => ""
  | [s] => s
  | s :: rest => s ++ "\n" ++ joinNl rest

/-- Alternation `(IR|FR|DR|NFR|CR)` of `REQ_ID_PATTERN` at the head of
the character list (the five alternatives have pairwise distinct first
characters, so the Python left-to-right alternative order is
immaterial). -/
def matchCategory : List Char → Option (String × List Char)
  | 'I' :: 'R' :: rest => some ("IR", rest)
  | 'F' :: 'R' :: rest => some ("FR", rest)
  | 'D' :: 'R' :: rest => some ("DR", rest)
  | 'N' :: 'F' :: 'R' :: rest => some ("NFR", rest)
  | 'C' :: 'R' :: rest => some ("CR", rest)
  | _ => none

/-- Attempt of `(IR|FR|DR|NFR|CR)-\d{3}\b` at the head of the list;
returns the matched token and the remaining characters.  The leading
`\b` is checked by the caller. -/
def matchReqIdAt (cs : List Char) : Option (String × List Char) :=
  match matchCategory cs with
  | none => none
  | some (cat, r1) =>
    match r1 with
    | '-' :: d1 :: d2 :: d3 :: r2 =>
      if d1.isDigit && d2.isDigit && d3.isDigit then
        match r2 with
        | [] => some (cat ++ "-" ++ String.mk [d1, d2, d3], [])
        | c :: _ =>
          if isWordChar c then none
          else some (cat ++ "-" ++ String.mk [d1, d2, d3], c :: r2.tail)
      else none
    | _ => none

/-- Scanner for `REQ_ID_PATTERN.finditer`: walks the characters one by
one remembering the previous one for the leading `\b` test, emits each
match, and skips the remaining characters of an emitted match (`skip`
counts them) so that matches never overlap and the search resumes at a
match's end, as `finditer` does. -/
def scanIdsAux (prev : Option Char) : List Char → Nat → List String
  | [], _ => []
  | c :: rest, skip + 1 => scanIdsAux (some c) rest skip
  | c :: rest, 0 =>
    let bOk := match prev with
      | none => true
      | some p => !(isWordChar p)
    if bOk then
      match matchReqIdAt (c :: rest) with
      | some (tok, _) => tok :: scanIdsAux (some c) rest (tok.length - 1)
      | none => scanIdsAux (some c) rest 0
    else scanIdsAux (some c) rest 0

/-- All `REQ_ID_PATTERN` matches of one line, left to right. -/
def findIds (line : String) : List String :=
  scanIdsAux none line.data 0

/-- Model of `REQ_ID_PATTERN.search(text) is not None`. -/
def hasReqId (text : String) : Bool :=
  !(scanIdsAux none text.data 0).isEmpty

/-- Case-insensitive literal match of `w` at the head of `cs`;
returns the remaining characters on success. -/
def matchWordCI : List Char → List Char → Option (List Char)
  | [], rest => some rest
  | _ :: _, [] => none
  | x :: ws, c :: rest => if c.toLower == x then matchWordCI ws rest else none

/-- One alternative of `\b(shall|should|may)\b` (IGNORECASE) matched at
the current position including the trailing `\b`. -/
def wordHereCI (w : String) (cs : List Char) : Bool :=
  match matchWordCI w.data cs with
  | none => false
  | some [] => true
  | some (c :: _) => !(isWordChar c)

/-- Scanner for `re.search(r"\b(shall|should|may)\b", block, IGNORECASE)`:
true iff some position with a word boundary starts one of the three
words. -/
def hasModalityAux (prev : Option Char) : List Char → Bool
  | [] => false
  | c :: rest =>
    let bOk := match prev with
      | none => true
      | some p => !(isWordChar p)
    (bOk && (wordHereCI "shall" (c :: rest) || wordHereCI "should" (c :: rest) ||
             wordHereCI "may" (c :: rest)))
    || hasModalityAux (some c) rest

/-- Model of the modality search of the source (line 191). -/
def hasModality (block : String) : Bool :=
  hasModalityAux none block.data

/-- Case-sensitive literal match of `w` at the head of `cs`. -/
def matchWordCS : List Char → List Char → Option (List Char)
  | [], rest => some rest
  | _ :: _, [] => none
  | x :: ws, c :: rest => if c == x then matchWordCS ws rest else none

/-- Literal term matched at the current position including the trailing
`\b`. -/
def wordHere (w : String) (cs : List Char) : Bool :=
  match matchWordCS w.data cs with
  | none => false
  | some [] => true
  | some (c :: _) => !(isWordChar c)

/-- Scanner for `re.search(rf"\b{term}\b", text)` where `term` is one of
the alphanumeric required-definition terms. -/
def wholeWordAux (w : String) (prev : Option Char) : List Char → Bool
  | [] => false
  | c :: rest =>
    let bOk := match prev with
      | none => true
      | some p => !(isWordChar p)
    (bOk && wordHere w (c :: rest)) || wholeWordAux w (some c) rest

/-- Model of the whole-word search used by the definitions check
(line 95 of the source). -/
def containsWholeWord (w : String) (text : String) : Bool :=
  wholeWordAux w none text.data

/-- Python `\s` in its ASCII reading. -/
def isPySpace (c : Char) : Bool :=
  c == ' ' || c == '\t' || c == '\n' || c == '\r' || c == '\x0b' || c == '\x0c'

/-- Attempt of `\|\s*0\.1\s*\|` at the current position. -/
def versionRowAt (cs : List Char) : Bool :=
  match cs with
  | '|' :: rest =>
    match rest.dropWhile isPySpace with
    | '0' :: '.' :: '1' :: r2 =>
      match r2.dropWhile isPySpace with
      | '|' :: _ => true
      | _ => false
    | _ => false
  | _ => false

/-- Scanner for `re.search(r"^\|\s*0\.1\s*\|", text, MULTILINE)`:
`^` matches at the start of the string and right after each `'\n'`. -/
def hasVersionRowAux (atLineStart : Bool) : List Char → Bool
  | [] => false
  | c :: rest => (atLineStart && versionRowAt (c :: rest)) || hasVersionRowAux (c == '\n') rest

/-- Model of the 0.1 version-row search of the change-control check. -/
def hasVersionRow (text : String) : Bool :=
  hasVersionRowAux true text.data

/-- Index of the last `'.'` of the list, if any (Python `str.rfind`). -/
def lastDotIdx : List Char → Option Nat
  | [] => none
  | c :: rest =>
    match lastDotIdx rest with
    | some i => some (i + 1)
    | none => if c == '.' then some 0 else none

/-- Model of `pathlib.PurePath.suffix` on a bare file name: the part
from the last dot when that dot is neither the first nor the last
character, `""` otherwise. -/
def suffixOf (name : String) : String :=
  match lastDotIdx name.data with
  | none => ""
  | some i => if 0 < i && i + 1 < name.data.length then String.mk (name.data.drop i) else ""

/-- One validation finding of the source `Finding` dataclass:
a severity (`"error"` or `"warning"`) and a message. -/
structure Finding where
  level : String
  message : String
  deriving DecidableEq, Repr

/-- A directory entry as seen by `Path.iterdir`: its file name, whether
it is a regular file, and its content (`none` when reading the content
raises). -/
structure FileEntry where
  name : String
  isFile : Bool
  content : Option String
  deriving DecidableEq, Repr

/-- One raw occurrence of a requirement identifier: file name, 1-based
line number, and the matched identifier string. -/
structure Occ where
  file : String
  line : Nat
  req : String
  deriving DecidableEq, Repr

/-- The `REQUIRED_SECTIONS` table of the source, in its fixed
insertion order. -/
def REQUIRED_SECTIONS : List (String × String) :=
  [("00", "Introduction"), ("01", "Product perspective"),
   ("02", "External interfaces"), ("03", "Functional requirements"),
   ("04", "Data requirements"), ("05", "Non-functional requirements"),
   ("06", "Constraints"), ("07", "Change control")]

/-- The `CATEGORY_PREFIX` dict of the source as a function.  The source
indexes the dict only with categories produced by `REQ_ID_PATTERN`, so
the catch-all branch is unreachable there. -/
def categoryPrefixMap : String → String
  | "IR" => "02"
  | "FR" => "03"
  | "DR" => "04"
  | "NFR" => "05"
  | "CR" => "06"
  | _ => ""

/-- The `REQUIRED_DEFINITIONS` list of the source. -/
def REQUIRED_DEFINITIONS : List String :=
  ["SRS", "RTM", "MoSCoW", "IADT", "FR", "NFR", "DR", "IR", "CR"]

/-- The `REQUIRED_META_FIELDS` tuple of the source. -/
def REQUIRED_META_FIELDS : List String :=
  ["Priority:", "Verify:", "Release:"]

/-- Model of `path.read_text(encoding="utf-8")`: the content when it is
readable, a raised exception otherwise. -/
def read_text (f : FileEntry) : Except Unit String :=
  match f.content with
  | some s => Except.ok s
  | none => Except.error ()

/-- Strict lexicographic comparison of character lists by code point:
the order Python uses to compare `str` values. -/
def charListLt : List Char → List Char → Bool
  | _, [] => false
  | [], _ :: _ => true
  | a :: as, b :: bs =>
    if a.toNat < b.toNat then true
    else if b.toNat < a.toNat then false
    else charListLt as bs

/-- Name order on directory entries: `sorted` over `pathlib.Path`
values that live in one directory compares their file names by code
point. -/
def fileLE (a b : FileEntry) : Prop := charListLt b.name.data a.name.data = false

instance fileLE.decRel : DecidableRel fileLE :=
  fun a b => inferInstanceAs (Decidable (charListLt b.name.data a.name.data = false))

/-- Model of `load_markdown_files` (source lines 55-60): the regular
files whose lowercased suffix is `".md"`, sorted by name. -/
def load_markdown_files (entries : List FileEntry) : List FileEntry :=
  List.insertionSort fileLE
    (entries.filter fun f => f.isFile && strToLower (suffixOf f.name) == ".md")

/-- Model of `validate_required_sections` (source lines 63-69). -/
def validate_required_sections (files : List FileEntry) : List Finding :=
  REQUIRED_SECTIONS.flatMap fun pt =>
    if (files.map (fun f => f.name)).any (fun n => strStartsWith n pt.1) then []
    else [Finding.mk "error" ("Missing section " ++ pt.1 ++ " (" ++ pt.2 ++ ").")]

/-- The finding the line-limit check produces for one file after its
content was read: RTM-named files are exempt, any other file errors
exactly when its line count exceeds the maximum. -/
def lineLimitFinding (name : String) (lineCount : Nat) (maxLines : Int) : List Finding :=
  if strStartsWith (strToLower name) "rtm" then []
  else if maxLines < (lineCount : Int) then
    [Finding.mk "error" (name ++ " has " ++ toString lineCount ++ " lines (max " ++
      toString maxLines ++ "); split this section.")]
  else []

/-- Model of `validate_line_limits` (source lines 72-85): every file is
read first (an unreadable file raises), then the RTM exemption and the
count check apply. -/
def validate_line_limits : List FileEntry → Int → Except Unit (List Finding)
  | [], _ => Except.ok []
  | f :: rest, maxLines =>
    match read_text f with
    | Except.error e => Except.error e
    | Except.ok text =>
      match validate_line_limits rest maxLines with
      | Except.error e => Except.error e
      | Except.ok fs =>
        Except.ok (lineLimitFinding f.name (splitlines text).length maxLines ++ fs)

/-- Findings of the definitions check for the located intro file. -/
def defFindings (introName : String) (text : String) : List Finding :=
  REQUIRED_DEFINITIONS.flatMap fun term =>
    if containsWholeWord term text then []
    else [Finding.mk "error"
      (introName ++ " is missing required definition or acronym: " ++ term ++ ".")]

/-- Model of `validate_definitions` (source lines 88-102). -/
def validate_definitions (files : List FileEntry) : Except Unit (List Finding) :=
  match files.find? (fun f => strStartsWith f.name "00") with
  | none => Except.ok []
  | some intro =>
    match read_text intro with
    | Except.error e => Except.error e
    | Except.ok text => Except.ok (defFindings intro.name text)

/-- The literal version-history table header of the source. -/
def versionTableHeader : String := "| Version | Date | Author | Changes |"

/-- Findings of the change-control check for the located 07 file. -/
def changeFindings (name : String) (text : String) : List Finding :=
  (if strContains text versionTableHeader then []
   else [Finding.mk "error"
     (name ++ " is missing the required version history table header.")]) ++
  (if hasVersionRow text then []
   else [Finding.mk "warning"
     (name ++ " does not include an initial 0.1 version row.")])

/-- Model of `validate_change_control` (source lines 105-125). -/
def validate_change_control (files : List FileEntry) : Except Unit (List Finding) :=
  match files.find? (fun f => strStartsWith f.name "07") with
  | none => Except.ok []
  | some cf =>
    match read_text cf with
    | Except.error e => Except.error e
    | Except.ok text => Except.ok (changeFindings cf.name text)

/-- The literal recommended RTM header row of the source. -/
def rtmHeaderRow : String :=
  "| Req ID | Requirement | Source/Need | Design Ref | Test Case | Status |"

/-- Per-file loop of `validate_rtm`. -/
def validate_rtm_go : List FileEntry → Except Unit (List Finding)
  | [] => Except.ok []
  | f :: rest =>
    match read_text f with
    | Except.error e => Except.error e
    | Except.ok text =>
      match validate_rtm_go rest with
      | Except.error e => Except.error e
      | Except.ok fs =>
        Except.ok ((if strContains text rtmHeaderRow then []
                    else [Finding.mk "warning"
                      (f.name ++ " is missing the recommended RTM header row.")]) ++ fs)

/-- Model of `validate_rtm` (source lines 128-141). -/
def validate_rtm (files : List FileEntry) : Except Unit (List Finding) :=
  validate_rtm_go (files.filter fun f => strStartsWith (strToLower f.name) "rtm")

/-- Model of `req.split("-", maxsplit=1)[0]`. -/
def categoryOf (req : String) : String :=
  String.mk (req.data.takeWhile (fun c => c != '-'))

/-- The duplicate-identifier error finding (source lines 159-167). -/
def dupMsg (o : Occ) (opath : String) (oline : Nat) : Finding :=
  Finding.mk "error"
    ("Duplicate requirement ID " ++ o.req ++ " in " ++ o.file ++ ":" ++
     toString o.line ++ "; already defined at " ++ opath ++ ":" ++
     toString oline ++ ".")

/-- The section-prefix mismatch warning finding (source lines 174-182). -/
def prefixWarnOf (o : Occ) : Finding :=
  Finding.mk "warning"
    (o.req ++ " appears in " ++ o.file ++ "; expected section prefix " ++
     categoryPrefixMap (categoryOf o.req) ++ " for " ++ categoryOf o.req ++
     " requirements.")

/-- The `seen_ids` registry: identifier string mapped to the file name
and line of its canonical definition site. -/
abbrev Seen := List (String × String × Nat)

/-- Lookup in the `seen_ids` registry. -/
def lookupSeen (seen : Seen) (req : String) : Option (String × Nat) :=
  (seen.find? (fun e => e.1 == req)).map (fun e => e.2)

/-- The section-prefix consistency part of one occurrence's processing:
it runs for every raw occurrence, registered or not. -/
def prefixPart (o : Occ) : List Finding :=
  if strStartsWith o.file (categoryPrefixMap (categoryOf o.req)) then []
  else [prefixWarnOf o]

/-- Processing of one identifier occurrence inside the per-line loop of
`validate_requirements` (source lines 154-182): a duplicate error when
the identifier is registered (registration otherwise), then the
independent section-prefix check. -/
def scanStep (seen : Seen) (o : Occ) : Seen × List Finding :=
  match lookupSeen seen o.req with
  | some fl => (seen, dupMsg o fl.1 fl.2 :: prefixPart o)
  | none => ((o.req, o.file, o.line) :: seen, prefixPart o)

/-- Fold of `scanStep` over occurrences in scan order, producing all
duplicate/prefix findings they emit. -/
def scanFold (seen : Seen) : List Occ → Seen × List Finding
  | [] => (seen, [])
  | o :: rest =>
    let sf := scanStep seen o
    let sf2 := scanFold sf.1 rest
    (sf2.1, sf.2 ++ sf2.2)

/-- The `id_lines` list of one file: every match of every line, lines
enumerated from 1, matches left to right. -/
def fileOccs (name : String) (lines : List String) : List Occ :=
  (List.enumFrom 1 lines).flatMap fun nl =>
    (findIds nl.2).map fun r => Occ.mk name nl.1 r

/-- Model of `"\n".join(lines[a:b])`. -/
def sliceJoin (lines : List String) (a b : Nat) : String :=
  joinNl ((lines.take b).drop a)

/-- The requirement-block quality checks for one occurrence (source
lines 191-205): one error when the block has no modality word, one
warning per absent metadata field. -/
def blockCheck (o : Occ) (block : String) : List Finding :=
  (if hasModality block then []
   else [Finding.mk "error"
     (o.req ++ " in " ++ o.file ++ ":" ++ toString o.line ++
      " does not contain shall/should/may.")]) ++
  REQUIRED_META_FIELDS.flatMap fun field =>
    if strContains block field then []
    else [Finding.mk "warning"
      (o.req ++ " in " ++ o.file ++ ":" ++ toString o.line ++
       " is missing '" ++ field ++ "'.")]

/-- The block loop of `validate_requirements` (source lines 185-205):
each occurrence's block runs from its line to the line before the next
occurrence's line (end of file for the last occurrence). -/
def blockFindings (lines : List String) : List Occ → List Finding
  | [] => []
  | [o] => blockCheck o (sliceJoin lines (o.line - 1) lines.length)
  | o :: o2 :: rest =>
    blockCheck o (sliceJoin lines (o.line - 1) (o2.line - 1)) ++
      blockFindings lines (o2 :: rest)

/-- The per-file loop of `validate_requirements`: reads each file,
collects its occurrence findings (threading `seen_ids` across files),
then its block findings. -/
def goFiles : Seen → List FileEntry → Except Unit (List Finding)
  | _, [] => Except.ok []
  | seen, f :: rest =>
    match read_text f with
    | Except.error e => Except.error e
    | Except.ok text =>
      let lines := splitlines text
      let occs := fileOccs f.name lines
      let sf := scanFold seen occs
      match goFiles sf.1 rest with
      | Except.error e => Except.error e
      | Except.ok fs => Except.ok (sf.2 ++ blockFindings lines occs ++ fs)

/-- The generator of `any(REQ_ID_PATTERN.search(p.read_text()) ...)`:
reads the section's files until one contains an identifier. -/
def sectionHasId : List FileEntry → Except Unit Bool
  | [] => Except.ok false
  | f :: rest =>
    match read_text f with
    | Except.error e => Except.error e
    | Except.ok text => if hasReqId text then Except.ok true else sectionHasId rest

/-- The category-coverage loop of `validate_requirements` (source lines
208-218). -/
def covGo (files : List FileEntry) : List String → Except Unit (List Finding)
  | [] => Except.ok []
  | pfx :: rest =>
    let sf := files.filter fun f => strStartsWith f.name pfx
    if sf.isEmpty then covGo files rest
    else
      match sectionHasId sf with
      | Except.error e => Except.error e
      | Except.ok true => covGo files rest
      | Except.ok false =>
        match covGo files rest with
        | Except.error e => Except.error e
        | Except.ok fs =>
          Except.ok (Finding.mk "warning"
            ("Section " ++ pfx ++ " has no requirement IDs detected.") :: fs)

/-- Model of `validate_requirements` (source lines 144-220). -/
def validate_requirements (files : List FileEntry) : Except Unit (List Finding) :=
  match goFiles [] files with
  | Except.error e => Except.error e
  | Except.ok fs =>
    match covGo files ["02", "03", "04", "05", "06"] with
    | Except.error e => Except.error e
    | Except.ok cs => Except.ok (fs ++ cs)

/-- The sequence of `findings.extend(...)` calls of `main` (source
lines 251-257), in their order; the first raised read error aborts. -/
def collectFindings (files : List FileEntry) (maxLines : Int) : Except Unit (List Finding) :=
  match validate_line_limits files maxLines with
  | Except.error e => Except.error e
  | Except.ok l1 =>
    match validate_definitions files with
    | Except.error e => Except.error e
    | Except.ok l2 =>
      match validate_change_control files with
      | Except.error e => Except.error e
      | Except.ok l3 =>
        match validate_rtm files with
        | Except.error e => Except.error e
        | Except.ok l4 =>
          match validate_requirements files with
          | Except.error e => Except.error e
          | Except.ok l5 =>
            Except.ok (validate_required_sections files ++ l1 ++ l2 ++ l3 ++ l4 ++ l5)

/-- The state of the path the tool is invoked on: absent, present but
not a directory, or a directory with its entries. -/
inductive SpecDir where
  | missing (path : String)
  | notDir (path : String)
  | dir (path : String) (entries : List FileEntry)
  deriving DecidableEq, Repr

/-- The observable outcome of one invocation: the stdout lines and the
exit status, or an abort through an uncaught exception. -/
inductive RunResult where
  | aborted
  | finished (output : List String) (exitCode : Nat)
  deriving DecidableEq, Repr

/-- The report of `main` (source lines 259-274): the error/warning
partition of the findings, then the failure report (banner, errors,
warnings, exit 1) or the success report (banner, warnings, checked
count, exit 0). -/
def renderReport (path : String) (files : List FileEntry) (findings : List Finding) :
    List String × Nat :=
  let errors := findings.filter fun f => f.level == "error"
  let warnings := findings.filter fun f => f.level == "warning"
  if errors.isEmpty then
    ("SRS validation passed." :: warnings.map (fun f => "WARN: " ++ f.message) ++
      ["Checked " ++ toString files.length ++ " markdown files in " ++ path ++ "."], 0)
  else
    ("SRS validation failed." :: errors.map (fun f => "ERROR: " ++ f.message) ++
      warnings.map (fun f => "WARN: " ++ f.message), 1)

/-- Model of `main` (source lines 235-274); named `runMain` because a
Lean definition named `main` is reserved for program entry points. -/
def runMain : SpecDir → Int → RunResult
  | SpecDir.missing p, _ =>
    RunResult.finished ["ERROR: Directory does not exist: " ++ p] 1
  | SpecDir.notDir p, _ =>
    RunResult.finished ["ERROR: Not a directory: " ++ p] 1
  | SpecDir.dir p entries, maxLines =>
    let files := load_markdown_files entries
    if files.isEmpty then
      RunResult.finished ["ERROR: No markdown files found in " ++ p] 1
    else
      match collectFindings files maxLines with
      | Except.error _ => RunResult.aborted
      | Except.ok findings =>
        let rp := renderReport p files findings
        RunResult.finished rp.1 rp.2

/-- Exit status of a run, when the run finished normally. -/
def runExit : RunResult → Option Nat
  | RunResult.aborted => none
  | RunResult.finished _ code => some code

/-- Readability of a list of loaded files: no file's content raises
when read. -/
def AllReadable (files : List FileEntry) : Prop :=
  ∀ f ∈ files, f.content ≠ none

instance AllReadable.dec (files : List FileEntry) : Decidable (AllReadable files) :=
  List.decidableBAll (fun f : FileEntry => f.content ≠ none) files

/-- Readability of everything a run on `d` can load. -/
def ReadableDir (d : SpecDir) : Prop :=
  match d with
  | SpecDir.dir _ entries => AllReadable entries
  | _ => True

instance ReadableDir.dec (d : SpecDir) : Decidable (ReadableDir d) :=
  match d with
  | SpecDir.missing _ => isTrue trivial
  | SpecDir.notDir _ => isTrue trivial
  | SpecDir.dir _ entries => AllReadable.dec entries

/-- The findings a finished run collects over the given loaded files
(empty for the unreachable aborted case). -/
def findingsOf (files : List FileEntry) (maxLines : Int) : List Finding :=
  (collectFindings files maxLines).toOption.getD []

/-- Marking of each occurrence in scan order with whether some earlier
occurrence (or a key of `ks`) already used the same identifier string:
the occurrences marked `true` are exactly the occurrences beyond the
first of their identifier. -/
def markDups (ks : List String) : List Occ → List (Occ × Bool)
  | [] => []
  | o :: rest => (o, ks.contains o.req) :: markDups (o.req :: ks) rest

/-- File name and line of the earliest occurrence of `req` in scan
order, if any. -/
def locFirst (occs : List Occ) (req : String) : Option (String × Nat) :=
  (occs.find? fun o => o.req == req).map fun o => (o.file, o.line)

/-- The duplicate finding named after an original definition site. -/
def dupAt (o : Occ) : Option (String × Nat) → List Finding
  | some fl => [dupMsg o fl.1 fl.2]
  | none => []

/-- The definition site a duplicate of `req` is attributed to: the
registered one, or else the earliest occurrence in `occs`. -/
def lookupOrFirst (seen : Seen) (occs : List Occ) (req : String) :
    Option (String × Nat) :=
  match lookupSeen seen req with
  | some fl => some fl
  | none => locFirst occs req

/-- Identifier strings registered in the `seen_ids` registry. -/
def seenKeys (seen : Seen) : List String :=
  seen.map fun e => e.1

/-- The condition under which a run reaches the checks and produces no
error-severity finding: the path is a directory, at least one markdown
file is loaded, and the collected findings contain no error. -/
def passCondition (d : SpecDir) (maxLines : Int) : Prop :=
  match d with
  | SpecDir.dir _ entries =>
    load_markdown_files entries ≠ [] ∧
    (findingsOf (load_markdown_files entries) maxLines).filter
      (fun f => f.level == "error") = []
  | _ => False

def rtm300 : FileEntry :=
  FileEntry.mk "rtm.md" true (some (joinNl (List.replicate 300 "x")))

def app300 : FileEntry :=
  FileEntry.mk "99-appendix.md" true (some (joinNl (List.replicate 300 "x")))

def c8intro : FileEntry :=
  FileEntry.mk "00-intro.md" true (some "SRS MoSCoW IADT FR NFR DR IR CR")

def c5occ : Occ := Occ.mk "03-functional.md" 7 "NFR-001"

def c5seen : Seen := [("NFR-001", "05-nfr.md", 2)]

def c6occ : Occ := Occ.mk "05-nfr.md" 3 "NFR-050"

def c1dir : List FileEntry :=
  [FileEntry.mk "00-intro.md" true (some "SRS RTM MoSCoW IADT FR NFR DR IR CR"),
   FileEntry.mk "01-scope.md" true none]

def c2dir : List FileEntry :=
  [FileEntry.mk "00-intro.md" true (some "SRS RTM MoSCoW IADT FR NFR DR IR CR")]

def c2out : List String :=
  ["SRS validation failed.",
   "ERROR: Missing section 01 (Product perspective).",
   "ERROR: Missing section 02 (External interfaces).",
   "ERROR: Missing section 03 (Functional requirements).",
   "ERROR: Missing section 04 (Data requirements).",
   "ERROR: Missing section 05 (Non-functional requirements).",
   "ERROR: Missing section 06 (Constraints).",
   "ERROR: Missing section 07 (Change control)."]

def c3file : FileEntry := FileEntry.mk "00-intro.md" true (some "SRS")

def c9a : FileEntry := FileEntry.mk "00-intro.md" true (some "SRS")

def c9b : FileEntry := FileEntry.mk "01-scope.md" true (some "x")

theorem charListLt_cons (a b : Char) (as bs : List Char) :
    charListLt (a :: as) (b :: bs) =
      if a.toNat < b.toNat then true
      else if b.toNat < a.toNat then false
      else charListLt as bs := rfl

theorem charListLt_asymm : ∀ x y : List Char,
    charListLt x y = true → charListLt y x = false
  | _, [], h => by simp [charListLt] at h
  | [], _ :: _, _ => rfl
  | a :: as, b :: bs, h => by
    rw [charListLt_cons] at h ⊢
    by_cases h1 : a.toNat < b.toNat
    · have h2 : ¬ b.toNat < a.toNat := by omega
      simp [h1, h2]
    · by_cases h2 : b.toNat < a.toNat
      · simp [h1, h2] at h
      · simp only [h1, h2, if_false] at h ⊢
        exact charListLt_asymm as bs h

theorem charListLt_trans : ∀ x y z : List Char,
    charListLt x y = true → charListLt y z = true → charListLt x z = true
  | _, y, [], _, h2 => by simp [charListLt] at h2
  | x, [], _ :: _, h1, _ => by simp [charListLt] at h1
  | [], _ :: _, _ :: _, _, _ => rfl
  | a :: as, b :: bs, c :: cs, h1, h2 => by
    rw [charListLt_cons] at h1 h2 ⊢
    by_cases hab : a.toNat < b.toNat
    · by_cases hbc : b.toNat < c.toNat
      · rw [if_pos (show a.toNat < c.toNat by omega)]
      · rw [if_neg hbc] at h2
        by_cases hcb : c.toNat < b.toNat
        · rw [if_pos hcb] at h2
          exact absurd h2 (by simp)
        · rw [if_pos (show a.toNat < c.toNat by omega)]
    · rw [if_neg hab] at h1
      by_cases hba : b.toNat < a.toNat
      · rw [if_pos hba] at h1
        exact absurd h1 (by simp)
      · rw [if_neg hba] at h1
        by_cases hbc : b.toNat < c.toNat
        · rw [if_pos (show a.toNat < c.toNat by omega)]
        · rw [if_neg hbc] at h2
          by_cases hcb : c.toNat < b.toNat
          · rw [if_pos hcb] at h2
            exact absurd h2 (by simp)
          · rw [if_neg hcb] at h2
            rw [if_neg (show ¬ a.toNat < c.toNat by omega),
                if_neg (show ¬ c.toNat < a.toNat by omega)]
            exact charListLt_trans as bs cs h1 h2

theorem char_eq_of_toNat {a b : Char} (h : a.toNat = b.toNat) : a = b :=
  Char.ext (UInt32.ext h)

theorem string_eq_of_data {s t : String} (h : s.data = t.data) : s = t := by
  cases s
  cases t
  simp_all

theorem charListLt_conn : ∀ x y : List Char,
    charListLt x y = false → charListLt y x = false → x = y
  | [], [], _, _ => rfl
  | [], _ :: _, h, _ => by simp [charListLt] at h
  | _ :: _, [], _, h => by simp [charListLt] at h
  | a :: as, b :: bs, h, h' => by
    rw [charListLt_cons] at h h'
    by_cases h1 : a.toNat < b.toNat
    · simp [h1] at h
    · by_cases h2 : b.toNat < a.toNat
      · simp [h2] at h'
      · have hab : a = b := char_eq_of_toNat (by omega)
        have h3 : charListLt as bs = false := by simpa [h1, h2] using h
        have h4 : charListLt bs as = false := by
          have h1' : ¬ b.toNat < a.toNat := h2
          have h2' : ¬ a.toNat < b.toNat := h1
          simpa [h1', h2'] using h'
        have := charListLt_conn as bs h3 h4
        rw [hab, this]

theorem charListLt_false_trans {x y z : List Char} (h1 : charListLt y x = false)
    (h2 : charListLt z y = false) : charListLt z x = false := by
  cases hxy : charListLt x y with
  | true =>
    cases hzx : charListLt z x with
    | true =>
      have : charListLt z y = true := charListLt_trans z x y hzx hxy
      rw [this] at h2
      exact absurd h2 (by simp)
    | false => rfl
  | false =>
    have : x = y := charListLt_conn x y hxy h1
    rw [← this] at h2
    exact h2

@[instance] theorem fileLE.total : IsTotal FileEntry fileLE := by
  constructor
  intro a b
  cases h : charListLt b.name.data a.name.data with
  | true => exact Or.inr (charListLt_asymm _ _ h)
  | false => exact Or.inl h

@[instance] theorem fileLE.trans : IsTrans FileEntry fileLE :=
  ⟨fun _ _ _ h1 h2 => charListLt_false_trans h1 h2⟩

theorem fileLE_antisymm_name {a b : FileEntry} (h1 : fileLE a b) (h2 : fileLE b a) :
    a.name = b.name :=
  string_eq_of_data (charListLt_conn a.name.data b.name.data h2 h1)

theorem validate_line_limits_eq (files : List FileEntry) (maxLines : Int)
    (h : AllReadable files) :
    validate_line_limits files maxLines =
      Except.ok (files.flatMap fun f =>
        lineLimitFinding f.name (splitlines (f.content.getD "")).length maxLines) := by
  induction files with
  | nil => rfl
  | cons f rest ih =>
    obtain ⟨s, hs⟩ := Option.ne_none_iff_exists'.mp (h f (List.mem_cons_self f rest))
    have hr : AllReadable rest := fun g hg => h g (List.mem_cons_of_mem f hg)
    simp [validate_line_limits, read_text, hs, ih hr]

theorem validate_definitions_eq (files : List FileEntry) (h : AllReadable files) :
    validate_definitions files =
      Except.ok (match files.find? (fun f => strStartsWith f.name "00") with
        | none => []
        | some intro => defFindings intro.name (intro.content.getD "")) := by
  unfold validate_definitions
  cases hf : files.find? (fun f => strStartsWith f.name "00") with
  | none => rfl
  | some intro =>
    obtain ⟨s, hs⟩ :=
      Option.ne_none_iff_exists'.mp (h intro (List.mem_of_find?_eq_some hf))
    simp [read_text, hs]

theorem validate_change_control_eq (files : List FileEntry) (h : AllReadable files) :
    validate_change_control files =
      Except.ok (match files.find? (fun f => strStartsWith f.name "07") with
        | none => []
        | some cf => changeFindings cf.name (cf.content.getD "")) := by
  unfold validate_change_control
  cases hf : files.find? (fun f => strStartsWith f.name "07") with
  | none => rfl
  | some cf =>
    obtain ⟨s, hs⟩ :=
      Option.ne_none_iff_exists'.mp (h cf (List.mem_of_find?_eq_some hf))
    simp [read_text, hs]

theorem validate_rtm_go_ok (files : List FileEntry) (h : AllReadable files) :
    ∃ fs, validate_rtm_go files = Except.ok fs := by
  induction files with
  | nil => exact ⟨[], rfl⟩
  | cons f rest ih =>
    obtain ⟨s, hs⟩ := Option.ne_none_iff_exists'.mp (h f (List.mem_cons_self f rest))
    obtain ⟨fs, hfs⟩ := ih fun g hg => h g (List.mem_cons_of_mem f hg)
    refine ⟨(if strContains s rtmHeaderRow then []
             else [Finding.mk "warning"
               (f.name ++ " is missing the recommended RTM header row.")]) ++ fs, ?_⟩
    simp [validate_rtm_go, read_text, hs, hfs]

theorem allReadable_filter (files : List FileEntry) (p : FileEntry → Bool)
    (h : AllReadable files) : AllReadable (files.filter p) :=
  fun f hf => h f (List.mem_filter.mp hf).1

theorem validate_rtm_ok (files : List FileEntry) (h : AllReadable files) :
    ∃ fs, validate_rtm files = Except.ok fs :=
  validate_rtm_go_ok _ (allReadable_filter files _ h)

theorem goFiles_ok (files : List FileEntry) (h : AllReadable files) :
    ∀ seen, ∃ fs, goFiles seen files = Except.ok fs := by
  induction files with
  | nil => exact fun _ => ⟨[], rfl⟩
  | cons f rest ih =>
    intro seen
    obtain ⟨s, hs⟩ := Option.ne_none_iff_exists'.mp (h f (List.mem_cons_self f rest))
    obtain ⟨fs, hfs⟩ := ih (fun g hg => h g (List.mem_cons_of_mem f hg))
      (scanFold seen (fileOccs f.name (splitlines s))).1
    refine ⟨(scanFold seen (fileOccs f.name (splitlines s))).2 ++
      (blockFindings (splitlines s) (fileOccs f.name (splitlines s)) ++ fs), ?_⟩
    simp [goFiles, read_text, hs, hfs]

theorem sectionHasId_ok (files : List FileEntry) (h : AllReadable files) :
    ∃ b, sectionHasId files = Except.ok b := by
  induction files with
  | nil => exact ⟨false, rfl⟩
  | cons f rest ih =>
    obtain ⟨s, hs⟩ := Option.ne_none_iff_exists'.mp (h f (List.mem_cons_self f rest))
    obtain ⟨b, hb⟩ := ih fun g hg => h g (List.mem_cons_of_mem f hg)
    cases hid : hasReqId s with
    | true => exact ⟨true, by simp [sectionHasId, read_text, hs, hid]⟩
    | false => exact ⟨b, by simp [sectionHasId, read_text, hs, hid, hb]⟩

theorem covGo_ok (files : List FileEntry) (h : AllReadable files) :
    ∀ pfxs, ∃ fs, covGo files pfxs = Except.ok fs := by
  intro pfxs
  induction pfxs with
  | nil => exact ⟨[], rfl⟩
  | cons pfx rest ih =>
    obtain ⟨fs, hfs⟩ := ih
    by_cases he : (files.filter fun f => strStartsWith f.name pfx).isEmpty
    · exact ⟨fs, by simp [covGo, he, hfs]⟩
    · obtain ⟨b, hb⟩ := sectionHasId_ok
        (files.filter fun f => strStartsWith f.name pfx) (allReadable_filter files _ h)
      cases b with
      | true => exact ⟨fs, by simp [covGo, he, hb, hfs]⟩
      | false =>
        refine ⟨Finding.mk "warning"
          ("Section " ++ pfx ++ " has no requirement IDs detected.") :: fs, ?_⟩
        simp [covGo, he, hb, hfs]

theorem validate_requirements_ok (files : List FileEntry) (h : AllReadable files) :
    ∃ fs, validate_requirements files = Except.ok fs := by
  obtain ⟨fs1, h1⟩ := goFiles_ok files h []
  obtain ⟨fs2, h2⟩ := covGo_ok files h ["02", "03", "04", "05", "06"]
  exact ⟨fs1 ++ fs2, by simp [validate_requirements, h1, h2]⟩

theorem collectFindings_ok (files : List FileEntry) (maxLines : Int)
    (h : AllReadable files) :
    collectFindings files maxLines = Except.ok (findingsOf files maxLines) := by
  obtain ⟨fs4, h4⟩ := validate_rtm_ok files h
  obtain ⟨fs5, h5⟩ := validate_requirements_ok files h
  unfold collectFindings
  rw [validate_line_limits_eq files maxLines h, validate_definitions_eq files h,
      validate_change_control_eq files h, h4, h5]
  unfold findingsOf collectFindings
  rw [validate_line_limits_eq files maxLines h, validate_definitions_eq files h,
      validate_change_control_eq files h, h4, h5]
  rfl

/-- C7: for a run over readable files the line-count check produces,
file by file, the findings of `lineLimitFinding`; that per-file result
is empty for every file whose name starts (case-insensitively) with
"rtm" regardless of its length, and for every other file it is exactly
one error-severity finding exactly when the line count strictly
exceeds the configured maximum. -/
theorem c7_line_limits (files : List FileEntry) (maxLines : Int)
    (h : AllReadable files) :
    validate_line_limits files maxLines =
      Except.ok (files.flatMap fun f =>
        lineLimitFinding f.name (splitlines (f.content.getD "")).length maxLines) ∧
    ∀ (name : String) (n : Nat),
      (strStartsWith (strToLower name) "rtm" = true →
        lineLimitFinding name n maxLines = []) ∧
      (strStartsWith (strToLower name) "rtm" = false →
        (lineLimitFinding name n maxLines).length =
          (if maxLines < (n : Int) then 1 else 0) ∧
        ∀ g ∈ lineLimitFinding name n maxLines, g.level = "error") := by
  refine ⟨validate_line_limits_eq files maxLines h, ?_⟩
  intro name n
  constructor
  · intro hrtm
    simp [lineLimitFinding, hrtm]
  · intro hrtm
    by_cases hc : maxLines < (n : Int)
    · simp [lineLimitFinding, hrtm, hc]
    · simp [lineLimitFinding, hrtm, hc]

set_option maxRecDepth 8192 in
/-- Witness for C7: a 300-line `rtm.md` yields no finding while the
same content named `99-appendix.md` yields one error, at max 150. -/
theorem c7_witness :
    validate_line_limits [rtm300, app300] 150 =
      Except.ok [Finding.mk "error"
        ("99-appendix.md has 300 lines (max 150); split this section.")] := by
  rw [(c7_line_limits [rtm300, app300] 150 (by decide)).1]
  exact congrArg Except.ok (by decide)

/-- C8: the definitions check emits, for the first file whose name
starts with "00", exactly one error per required term that does not
occur as a whole word in that file's text; when no file name starts
with "00" it emits no finding at all. -/
theorem c8_definitions (files : List FileEntry) :
    (files.find? (fun f => strStartsWith f.name "00") = none →
      validate_definitions files = Except.ok []) ∧
    (∀ (intr : FileEntry) (text : String),
      files.find? (fun f => strStartsWith f.name "00") = some intr →
      intr.content = some text →
      validate_definitions files =
        Except.ok (REQUIRED_DEFINITIONS.flatMap fun term =>
          if containsWholeWord term text then []
          else [Finding.mk "error"
            (intr.name ++ " is missing required definition or acronym: " ++
             term ++ ".")])) := by
  constructor
  · intro h
    simp [validate_definitions, h]
  · intro intr text hf hc
    simp [validate_definitions, hf, read_text, hc, defFindings]

/-- Witness for C8: an intro file missing only the word "RTM" yields
exactly one error naming that term. -/
theorem c8_witness :
    validate_definitions [c8intro] =
      Except.ok [Finding.mk "error"
        ("00-intro.md is missing required definition or acronym: RTM.")] := by
  rw [(c8_definitions [c8intro]).2 c8intro "SRS MoSCoW IADT FR NFR DR IR CR"
    (by decide) rfl]
  rfl

/-- C5: the section-prefix consistency check runs for every raw
occurrence independently of duplicate status: whenever the
occurrence's file name does not start with the prefix mapped from its
category the warning is emitted whatever the registry contains, and
for a registered (duplicate) identifier the occurrence emits both the
duplicate error and the prefix warning. -/
theorem c5_prefix_independent (o : Occ)
    (hmis : strStartsWith o.file (categoryPrefixMap (categoryOf o.req)) = false) :
    (∀ seen : Seen, prefixWarnOf o ∈ (scanStep seen o).2) ∧
    (∀ (seen : Seen) (opath : String) (oline : Nat),
      lookupSeen seen o.req = some (opath, oline) →
      (scanStep seen o).2 = [dupMsg o opath oline, prefixWarnOf o]) := by
  have hp : prefixPart o = [prefixWarnOf o] := by simp [prefixPart, hmis]
  constructor
  · intro seen
    unfold scanStep
    cases hl : lookupSeen seen o.req with
    | some fl => simp [hp]
    | none => simp [hp]
  · intro seen opath oline hl
    simp [scanStep, hl, hp]

/-- Witness for C5: a duplicate occurrence in a category-mismatched
file emits both the duplicate error and the prefix warning. -/
theorem c5_witness :
    (scanStep c5seen c5occ).2 = [dupMsg c5occ "05-nfr.md" 2, prefixWarnOf c5occ] :=
  (c5_prefix_independent c5occ (by decide)).2 c5seen "05-nfr.md" 2 (by decide)

/-- C6: for every requirement block the modality check contributes
exactly one error exactly when no modality word occurs in the block,
the metadata check contributes one warning per absent metadata field,
and a block with a modality word and all three fields contributes no
finding. -/
theorem c6_block_quality (o : Occ) (block : String) :
    ((blockCheck o block).filter (fun f => f.level == "error")).length =
      (if hasModality block then 0 else 1) ∧
    ((blockCheck o block).filter (fun f => f.level == "warning")).length =
      (REQUIRED_META_FIELDS.filter (fun field => !(strContains block field))).length ∧
    (hasModality block = true →
      (∀ field ∈ REQUIRED_META_FIELDS, strContains block field = true) →
      blockCheck o block = []) := by
  cases hm : hasModality block <;>
    cases h1 : strContains block "Priority:" <;>
      cases h2 : strContains block "Verify:" <;>
        cases h3 : strContains block "Release:" <;>
          simp [blockCheck, REQUIRED_META_FIELDS, hm, h1, h2, h3]

/-- Witness for C6: the block `NFR-050: fast` yields one missing
modality error and three missing-metadata warnings. -/
theorem c6_witness :
    ((blockCheck c6occ "NFR-050: fast").filter
      (fun f => f.level == "error")).length = 1 ∧
    ((blockCheck c6occ "NFR-050: fast").filter
      (fun f => f.level == "warning")).length = 3 := by
  have h := c6_block_quality c6occ "NFR-050: fast"
  refine ⟨?_, ?_⟩
  · rw [h.1]
    decide
  · rw [h.2.1]
    decide

/-- C10: when two consecutive occurrences share a line, the earlier
occurrence's requirement block is empty (its slice bounds coincide),
so the block checks emit the missing-modality error and all three
missing-metadata warnings for it, whatever the document lines
contain. -/
theorem c10_same_line_empty_block (lines : List String) (o o2 : Occ)
    (rest : List Occ) (h : o.line = o2.line) :
    sliceJoin lines (o.line - 1) (o2.line - 1) = "" ∧
    blockFindings lines (o :: o2 :: rest) =
      [Finding.mk "error" (o.req ++ " in " ++ o.file ++ ":" ++ toString o.line ++
         " does not contain shall/should/may."),
       Finding.mk "warning" (o.req ++ " in " ++ o.file ++ ":" ++ toString o.line ++
         " is missing '" ++ "Priority:" ++ "'."),
       Finding.mk "warning" (o.req ++ " in " ++ o.file ++ ":" ++ toString o.line ++
         " is missing '" ++ "Verify:" ++ "'."),
       Finding.mk "warning" (o.req ++ " in " ++ o.file ++ ":" ++ toString o.line ++
         " is missing '" ++ "Release:" ++ "'.")] ++ blockFindings lines (o2 :: rest) := by
  have hs : sliceJoin lines (o.line - 1) (o2.line - 1) = "" := by
    rw [h]
    unfold sliceJoin
    rw [List.drop_eq_nil_of_le (List.length_take_le _ _)]
    rfl
  refine ⟨hs, ?_⟩
  show blockCheck o (sliceJoin lines (o.line - 1) (o2.line - 1)) ++
    blockFindings lines (o2 :: rest) = _
  rw [hs]
  rfl

/-- Witness for C10: two identifiers on one line leave the first with
an empty block and its four findings. -/
theorem c10_witness :
    blockFindings ["FR-001 FR-002 both shall hold"]
      [Occ.mk "03-f.md" 1 "FR-001", Occ.mk "03-f.md" 1 "FR-002"] =
      [Finding.mk "error" ("FR-001" ++ " in " ++ "03-f.md" ++ ":" ++ toString 1 ++
         " does not contain shall/should/may."),
       Finding.mk "warning" ("FR-001" ++ " in " ++ "03-f.md" ++ ":" ++ toString 1 ++
         " is missing '" ++ "Priority:" ++ "'."),
       Finding.mk "warning" ("FR-001" ++ " in " ++ "03-f.md" ++ ":" ++ toString 1 ++
         " is missing '" ++ "Verify:" ++ "'."),
       Finding.mk "warning" ("FR-001" ++ " in " ++ "03-f.md" ++ ":" ++ toString 1 ++
         " is missing '" ++ "Release:" ++ "'.")] ++
        blockFindings ["FR-001 FR-002 both shall hold"] [Occ.mk "03-f.md" 1 "FR-002"] :=
  (c10_same_line_empty_block ["FR-001 FR-002 both shall hold"]
    (Occ.mk "03-f.md" 1 "FR-001") (Occ.mk "03-f.md" 1 "FR-002") [] rfl).2

theorem lookupSeen_none_iff (seen : Seen) (req : String) :
    lookupSeen seen req = none ↔ (seenKeys seen).contains req = false := by
  induction seen with
  | nil => simp [lookupSeen, seenKeys]
  | cons e rest ih =>
    by_cases he : e.1 = req
    · simp [lookupSeen, seenKeys, List.find?_cons, he]
    · simp only [lookupSeen, seenKeys, List.map_cons, List.find?_cons,
        List.contains_cons] at *
      rw [show (e.1 == req) = false from beq_eq_false_iff_ne.mpr he,
          show (req == e.1) = false from beq_eq_false_iff_ne.mpr (Ne.symm he)]
      simpa using ih

theorem scanFold_cons (seen : Seen) (o : Occ) (rest : List Occ) :
    scanFold seen (o :: rest) =
      ((scanFold (scanStep seen o).1 rest).1,
       (scanStep seen o).2 ++ (scanFold (scanStep seen o).1 rest).2) := rfl

theorem markDups_congr : ∀ (occs : List Occ) {ks ks' : List String},
    (∀ r, ks.contains r = ks'.contains r) → markDups ks occs = markDups ks' occs
  | [], _, _, _ => rfl
  | o :: rest, ks, ks', h => by
    simp only [markDups, h o.req]
    congr 1
    exact markDups_congr rest (fun r => by
      rw [List.contains_cons, List.contains_cons, h r])

theorem flatMap_congr_fun {α β : Type} {f g : α → List β}
    (h : ∀ x, f x = g x) : ∀ l : List α, l.flatMap f = l.flatMap g := by
  intro l
  induction l with
  | nil => rfl
  | cons a t ih => simp only [List.flatMap_cons, h a, ih]

theorem locFirst_cons_ne {o : Occ} {occs : List Occ} {req : String} (h : o.req ≠ req) :
    locFirst (o :: occs) req = locFirst occs req := by
  unfold locFirst
  rw [List.find?_cons_of_neg _ (by simpa using h)]

theorem lookupOrFirst_some {seen : Seen} {o : Occ} {occs : List Occ}
    {fl : String × Nat} (hl : lookupSeen seen o.req = some fl) :
    ∀ r, lookupOrFirst seen occs r = lookupOrFirst seen (o :: occs) r := by
  intro r
  unfold lookupOrFirst
  cases hr : lookupSeen seen r with
  | some _ => rfl
  | none =>
    by_cases he : o.req = r
    · rw [he] at hl
      rw [hr] at hl
      cases hl
    · rw [locFirst_cons_ne he]

theorem lookupOrFirst_none {seen : Seen} {o : Occ} {occs : List Occ}
    (hl : lookupSeen seen o.req = none) :
    ∀ r, lookupOrFirst ((o.req, o.file, o.line) :: seen) occs r =
      lookupOrFirst seen (o :: occs) r := by
  intro r
  by_cases he : o.req = r
  · subst he
    unfold lookupOrFirst
    rw [hl]
    have h1 : lookupSeen ((o.req, o.file, o.line) :: seen) o.req =
        some (o.file, o.line) := by
      simp [lookupSeen, List.find?_cons]
    have h2 : locFirst (o :: occs) o.req = some (o.file, o.line) := by
      simp [locFirst, List.find?_cons]
    rw [h1, h2]
  · unfold lookupOrFirst
    have h1 : lookupSeen ((o.req, o.file, o.line) :: seen) r = lookupSeen seen r := by
      simp only [lookupSeen, List.find?_cons]
      rw [show ((o.req, o.file, o.line).1 == r) = false from beq_eq_false_iff_ne.mpr he]
    rw [h1, locFirst_cons_ne he]

theorem scanFold_eq_markDups (occs : List Occ) : ∀ seen : Seen,
    (scanFold seen occs).2 =
      (markDups (seenKeys seen) occs).flatMap (fun ob =>
        (if ob.2 then dupAt ob.1 (lookupOrFirst seen occs ob.1.req) else []) ++
        prefixPart ob.1) := by
  induction occs with
  | nil => intro seen; rfl
  | cons o rest ih =>
    intro seen
    rw [scanFold_cons]
    cases hl : lookupSeen seen o.req with
    | some fl =>
      have hk : (seenKeys seen).contains o.req = true := by
        cases hc : (seenKeys seen).contains o.req
        · rw [(lookupSeen_none_iff seen o.req).mpr hc] at hl
          cases hl
        · rfl
      have hstep : scanStep seen o = (seen, dupMsg o fl.1 fl.2 :: prefixPart o) := by
        simp [scanStep, hl]
      have hlof : lookupOrFirst seen (o :: rest) o.req = some fl := by
        unfold lookupOrFirst
        rw [hl]
      have hkeys : ∀ r, (seenKeys seen).contains r =
          (o.req :: seenKeys seen).contains r := by
        intro r
        rw [List.contains_cons]
        by_cases hr : r = o.req
        · subst hr
          rw [show (o.req == o.req) = true from beq_self_eq_true o.req, Bool.true_or, hk]
        · rw [show (r == o.req) = false from beq_eq_false_iff_ne.mpr hr]
          simp
      have hfm : (markDups (seenKeys seen) rest).flatMap
          (fun ob => (if ob.2 then dupAt ob.1 (lookupOrFirst seen rest ob.1.req)
            else []) ++ prefixPart ob.1) =
        (markDups (seenKeys seen) rest).flatMap
          (fun ob => (if ob.2 then dupAt ob.1 (lookupOrFirst seen (o :: rest) ob.1.req)
            else []) ++ prefixPart ob.1) :=
        flatMap_congr_fun (fun ob => by rw [lookupOrFirst_some hl ob.1.req]) _
      have hmk : markDups (seenKeys seen) rest =
          markDups (o.req :: seenKeys seen) rest :=
        markDups_congr rest hkeys
      rw [hstep]
      dsimp only
      rw [ih seen, hfm, hmk]
      simp only [markDups, hk, List.flatMap_cons, if_true, hlof, dupAt]
      simp [List.append_assoc]
    | none =>
      have hk : (seenKeys seen).contains o.req = false :=
        (lookupSeen_none_iff seen o.req).mp hl
      have hstep : scanStep seen o =
          ((o.req, o.file, o.line) :: seen, prefixPart o) := by
        simp [scanStep, hl]
      have hfm : (markDups (seenKeys ((o.req, o.file, o.line) :: seen)) rest).flatMap
          (fun ob => (if ob.2 then
            dupAt ob.1 (lookupOrFirst ((o.req, o.file, o.line) :: seen) rest ob.1.req)
            else []) ++ prefixPart ob.1) =
        (markDups (o.req :: seenKeys seen) rest).flatMap
          (fun ob => (if ob.2 then dupAt ob.1 (lookupOrFirst seen (o :: rest) ob.1.req)
            else []) ++ prefixPart ob.1) :=
        flatMap_congr_fun (fun ob => by rw [lookupOrFirst_none hl ob.1.req]) _
      rw [hstep]
      dsimp only
      rw [ih ((o.req, o.file, o.line) :: seen), hfm]
      simp only [markDups, hk, List.flatMap_cons, if_false]
      simp

theorem markDups_count (req : String) : ∀ (occs : List Occ) (ks : List String),
    ((markDups ks occs).filter (fun ob => ob.1.req == req && ob.2)).length =
      (if ks.contains req then (occs.filter (fun o => o.req == req)).length
       else (occs.filter (fun o => o.req == req)).length - 1) := by
  intro occs
  induction occs with
  | nil =>
    intro ks
    cases h : ks.contains req <;> simp [markDups, h]
  | cons o rest ih =>
    intro ks
    have hstep : markDups ks (o :: rest) =
        (o, ks.contains o.req) :: markDups (o.req :: ks) rest := rfl
    by_cases ho : o.req = req
    · subst ho
      have hself : (o.req == o.req) = true := beq_self_eq_true o.req
      have hk2 : (o.req :: ks).contains o.req = true := by
        rw [List.contains_cons, hself, Bool.true_or]
      have hrec := ih (o.req :: ks)
      rw [hk2, if_pos rfl] at hrec
      cases hk : ks.contains o.req with
      | false =>
        rw [hstep, hk,
          List.filter_cons_of_neg (by rw [hself, Bool.and_false]; simp),
          hrec, if_neg (by simp),
          @List.filter_cons_of_pos Occ (fun o1 => o1.req == o.req) o rest hself,
          List.length_cons]
        omega
      | true =>
        rw [hstep, hk,
          List.filter_cons_of_pos (by rw [hself, Bool.and_true]),
          List.length_cons, hrec, if_pos rfl,
          @List.filter_cons_of_pos Occ (fun o1 => o1.req == o.req) o rest hself,
          List.length_cons]
    · have hne : (o.req == req) = false := beq_eq_false_iff_ne.mpr ho
      have hne2 : (req == o.req) = false := beq_eq_false_iff_ne.mpr (Ne.symm ho)
      have hk2 : (o.req :: ks).contains req = ks.contains req := by
        rw [List.contains_cons, hne2, Bool.false_or]
      have hrec := ih (o.req :: ks)
      rw [hk2] at hrec
      rw [hstep,
        List.filter_cons_of_neg (by rw [hne, Bool.false_and]; simp),
        hrec, List.filter_cons_of_neg (by rw [hne]; simp)]

/-- C4: over any occurrence list in scan order, the occurrence-scan
part of `validate_requirements` (the fold of `scanStep` that threads the
`seen_ids` registry) emits, for every occurrence beyond the first of
its identifier string (those are exactly the occurrences `markDups`
flags), one duplicate error naming the earliest occurrence of that
identifier in scan order (`locFirst`), besides the independent prefix
part; and for every identifier string occurring n times, the number of
flagged occurrences — hence of duplicate errors — is n - 1. -/
theorem c4_duplicates (occs : List Occ) (req : String) :
    (scanFold [] occs).2 =
      (markDups [] occs).flatMap (fun ob =>
        (if ob.2 then dupAt ob.1 (locFirst occs ob.1.req) else []) ++
        prefixPart ob.1) ∧
    ((markDups [] occs).filter (fun ob => ob.1.req == req && ob.2)).length =
      (occs.filter (fun o => o.req == req)).length - 1 := by
  constructor
  · exact scanFold_eq_markDups occs []
  · exact markDups_count req occs []

theorem validate_line_limits_err (files : List FileEntry) (maxLines : Int)
    (h : ∃ f ∈ files, f.content = none) :
    validate_line_limits files maxLines = Except.error () := by
  induction files with
  | nil => simp at h
  | cons f rest ih =>
    obtain ⟨g, hg, hgc⟩ := h
    rcases List.mem_cons.mp hg with hgf | hgr
    · subst hgf
      simp [validate_line_limits, read_text, hgc]
    · cases hf : f.content with
      | none => simp [validate_line_limits, read_text, hf]
      | some s =>
        have := ih ⟨g, hgr, hgc⟩
        simp [validate_line_limits, read_text, hf, this]

/-- C1 (amended): when the content of some loaded markdown file cannot
be read, the run does not surface a finding but aborts through the
propagated read exception: the whole invocation ends in the aborted
state, with no report produced. -/
theorem c1_unreadable_aborts (p : String) (entries : List FileEntry) (maxLines : Int)
    (h : ∃ f ∈ load_markdown_files entries, f.content = none) :
    runMain (SpecDir.dir p entries) maxLines = RunResult.aborted := by
  obtain ⟨f, hf, hfc⟩ := h
  have hne : (load_markdown_files entries).isEmpty = false := by
    cases he : (load_markdown_files entries).isEmpty
    · rfl
    · rw [List.isEmpty_iff.mp he] at hf
      simp at hf
  have herr : collectFindings (load_markdown_files entries) maxLines =
      Except.error () := by
    unfold collectFindings
    rw [validate_line_limits_err _ maxLines ⟨f, hf, hfc⟩]
  simp [runMain, hne, herr]

/-- Counterexample for C1 as stated: a directory whose second file is
unreadable makes the run abort; no error finding naming the file is
produced and the other files are not checked. -/
theorem c1_counterexample :
    runMain (SpecDir.dir "specs" c1dir) 150 = RunResult.aborted := by decide

/-- Witness for C1 (amended): the same concrete directory discharges
the hypothesis of the amended theorem. -/
theorem c1_witness :
    runMain (SpecDir.dir "specs" c1dir) 150 = RunResult.aborted :=
  c1_unreadable_aborts "specs" c1dir 150
    ⟨FileEntry.mk "01-scope.md" true none, by decide, rfl⟩

theorem load_mem_of_mem {entries : List FileEntry} {f : FileEntry}
    (hf : f ∈ load_markdown_files entries) : f ∈ entries := by
  have h1 := (List.perm_insertionSort fileLE _).mem_iff.mp hf
  exact (List.mem_filter.mp h1).1

theorem allReadable_load (entries : List FileEntry) (h : AllReadable entries) :
    AllReadable (load_markdown_files entries) :=
  fun f hf => h f (load_mem_of_mem hf)

/-- C2 (amended): every run that reaches the checks over readable
files reports a pass/fail banner, then every error line, then every
warning line; the summary count of files checked is printed only on
the pass branch, and the failure report ends with the warnings without
any count line. -/
theorem c2_report_layout (p : String) (entries : List FileEntry) (maxLines : Int)
    (h : AllReadable entries) (hne : load_markdown_files entries ≠ []) :
    runMain (SpecDir.dir p entries) maxLines =
      (let files := load_markdown_files entries
       let findings := findingsOf files maxLines
       let errors := findings.filter fun f => f.level == "error"
       let warnings := findings.filter fun f => f.level == "warning"
       if errors.isEmpty then
         RunResult.finished
           ("SRS validation passed." ::
              warnings.map (fun f => "WARN: " ++ f.message) ++
            ["Checked " ++ toString files.length ++ " markdown files in " ++
              p ++ "."]) 0
       else
         RunResult.finished
           ("SRS validation failed." ::
              errors.map (fun f => "ERROR: " ++ f.message) ++
            warnings.map (fun f => "WARN: " ++ f.message)) 1) := by
  have hld := allReadable_load entries h
  have hok := collectFindings_ok (load_markdown_files entries) maxLines hld
  have hne2 : (load_markdown_files entries).isEmpty = false := by
    cases h' : (load_markdown_files entries).isEmpty
    · rfl
    · exact absurd (List.isEmpty_iff.mp h') hne
  simp only [runMain, hne2, hok, renderReport]
  by_cases he : ((findingsOf (load_markdown_files entries) maxLines).filter
      (fun f => f.level == "error")).isEmpty <;>
    simp [he]

/-- Counterexample for C2 as stated: a failing run prints the failure
banner and the error lines and then stops; no line of its report is a
summary count of files checked, so the count line is not present in
both outcomes. -/
theorem c2_counterexample :
    runMain (SpecDir.dir "specs" c2dir) 150 = RunResult.finished c2out 1 ∧
    c2out.all (fun l => !(strStartsWith l "Checked")) = true := by
  constructor
  · decide
  · decide

/-- Witness for C2 (amended): a concrete failing directory discharges
the hypotheses of the amended report-layout theorem. -/
theorem c2_witness :
    runMain (SpecDir.dir "specs" c2dir) 150 =
      (let files := load_markdown_files c2dir
       let findings := findingsOf files 150
       let errors := findings.filter fun f => f.level == "error"
       let warnings := findings.filter fun f => f.level == "warning"
       if errors.isEmpty then
         RunResult.finished
           ("SRS validation passed." ::
              warnings.map (fun f => "WARN: " ++ f.message) ++
            ["Checked " ++ toString files.length ++ " markdown files in " ++
              "specs" ++ "."]) 0
       else
         RunResult.finished
           ("SRS validation failed." ::
              errors.map (fun f => "ERROR: " ++ f.message) ++
            warnings.map (fun f => "WARN: " ++ f.message)) 1) :=
  c2_report_layout "specs" c2dir 150 (by decide) (by decide)

theorem renderReport_exit (path : String) (files : List FileEntry)
    (findings : List Finding) :
    (renderReport path files findings).2 =
      (if ((findings.filter fun f => f.level == "error").isEmpty) then 0 else 1) := by
  unfold renderReport
  by_cases h : ((findings.filter fun f => f.level == "error").isEmpty) <;> simp [h]

/-- C3: for every invocation with readable contents the exit status is
0 exactly when the path is an existing directory, at least one
markdown file is loaded, and no error-severity finding is collected;
in every other case the status is 1 — warnings never influence the
status. -/
theorem c3_exit_status (d : SpecDir) (maxLines : Int) (h : ReadableDir d) :
    (runExit (runMain d maxLines) = some 0 ↔ passCondition d maxLines) ∧
    (runExit (runMain d maxLines) = some 0 ∨ runExit (runMain d maxLines) = some 1) := by
  cases d with
  | missing p =>
    refine ⟨⟨fun h0 => ?_, fun hp => hp.elim⟩, Or.inr rfl⟩
    simp [runMain, runExit] at h0
  | notDir p =>
    refine ⟨⟨fun h0 => ?_, fun hp => hp.elim⟩, Or.inr rfl⟩
    simp [runMain, runExit] at h0
  | dir p entries =>
    by_cases hng : load_markdown_files entries = []
    · have hemp : (load_markdown_files entries).isEmpty = true :=
        List.isEmpty_iff.mpr hng
      constructor
      · constructor
        · intro h0
          simp [runMain, hemp, runExit] at h0
        · intro hp
          exact absurd hng hp.1
      · right
        simp [runMain, hemp, runExit]
    · have hld := allReadable_load entries h
      have hok := collectFindings_ok (load_markdown_files entries) maxLines hld
      have hne2 : (load_markdown_files entries).isEmpty = false := by
        cases h' : (load_markdown_files entries).isEmpty
        · rfl
        · exact absurd (List.isEmpty_iff.mp h') hng
      have hrun : runMain (SpecDir.dir p entries) maxLines =
          RunResult.finished
            (renderReport p (load_markdown_files entries)
              (findingsOf (load_markdown_files entries) maxLines)).1
            (renderReport p (load_markdown_files entries)
              (findingsOf (load_markdown_files entries) maxLines)).2 := by
        simp [runMain, hne2, hok]
      have hexit : runExit (runMain (SpecDir.dir p entries) maxLines) =
          some (if ((findingsOf (load_markdown_files entries) maxLines).filter
            (fun f => f.level == "error")).isEmpty then 0 else 1) := by
        rw [hrun]
        show some ((renderReport p (load_markdown_files entries)
          (findingsOf (load_markdown_files entries) maxLines)).2) = _
        rw [renderReport_exit]
      by_cases herr : ((findingsOf (load_markdown_files entries) maxLines).filter
          (fun f => f.level == "error")).isEmpty
      · rw [hexit, if_pos herr]
        exact ⟨iff_of_true rfl ⟨hng, List.isEmpty_iff.mp herr⟩, Or.inl rfl⟩
      · rw [hexit, if_neg herr]
        exact ⟨iff_of_false (by simp)
          (fun hp => absurd (List.isEmpty_iff.mpr hp.2) herr), Or.inr rfl⟩

/-- Witness for C3: a concrete readable invocation discharges the
hypothesis, and its exit status is 0 or 1. -/
theorem c3_witness :
    runExit (runMain (SpecDir.dir "specs" [c3file]) 150) = some 0 ∨
    runExit (runMain (SpecDir.dir "specs" [c3file]) 150) = some 1 :=
  (c3_exit_status (SpecDir.dir "specs" [c3file]) 150 (by decide)).2

theorem sorted_nodup_name_eq : ∀ {l1 l2 : List FileEntry}, l1.Perm l2 →
    l1.Sorted fileLE → l2.Sorted fileLE →
    (l1.map (fun f => f.name)).Nodup → l1 = l2 := by
  intro l1
  induction l1 with
  | nil =>
    intro l2 hp _ _ _
    exact (hp.symm.eq_nil).symm
  | cons a t1 ih =>
    intro l2 hp hs1 hs2 hnd
    cases l2 with
    | nil => exact absurd hp.eq_nil (by simp)
    | cons b t2 =>
      have hab : a = b := by
        by_contra hne
        have ha2 : a ∈ b :: t2 := hp.mem_iff.mp (List.mem_cons_self a t1)
        have hb1 : b ∈ a :: t1 := hp.mem_iff.mpr (List.mem_cons_self b t2)
        have ha : a ∈ t2 := by
          rcases List.mem_cons.mp ha2 with hh | hh
          · exact absurd hh hne
          · exact hh
        have hb : b ∈ t1 := by
          rcases List.mem_cons.mp hb1 with hh | hh
          · exact absurd hh.symm hne
          · exact hh
        have h1 : fileLE a b := (List.sorted_cons.mp hs1).1 b hb
        have h2 : fileLE b a := (List.sorted_cons.mp hs2).1 a ha
        have hname : a.name = b.name := fileLE_antisymm_name h1 h2
        have hmem : a.name ∈ t1.map (fun f => f.name) := by
          rw [hname]
          exact List.mem_map_of_mem _ hb
        have hnd2 : (a.name :: t1.map (fun f => f.name)).Nodup := by
          simpa using hnd
        exact absurd hmem (List.nodup_cons.mp hnd2).1
      subst hab
      have ht : t1.Perm t2 := hp.cons_inv
      have hnd2 : (a.name :: t1.map (fun f => f.name)).Nodup := by
        simpa using hnd
      have := ih ht (List.sorted_cons.mp hs1).2 (List.sorted_cons.mp hs2).2
        (List.nodup_cons.mp hnd2).2
      rw [this]

theorem load_perm_nodup_eq {e1 e2 : List FileEntry} (hp : e1.Perm e2)
    (hnd : (e1.map (fun f => f.name)).Nodup) :
    load_markdown_files e1 = load_markdown_files e2 := by
  unfold load_markdown_files
  have hpf : (e1.filter fun f => f.isFile && strToLower (suffixOf f.name) == ".md").Perm
      (e2.filter fun f => f.isFile && strToLower (suffixOf f.name) == ".md") :=
    hp.filter _
  have hperm : (List.insertionSort fileLE
      (e1.filter fun f => f.isFile && strToLower (suffixOf f.name) == ".md")).Perm
      (List.insertionSort fileLE
        (e2.filter fun f => f.isFile && strToLower (suffixOf f.name) == ".md")) :=
    ((List.perm_insertionSort fileLE _).trans hpf).trans
      (List.perm_insertionSort fileLE _).symm
  have hndf : ((e1.filter fun f =>
      f.isFile && strToLower (suffixOf f.name) == ".md").map (fun f => f.name)).Nodup :=
    ((List.filter_sublist e1).map (fun f => f.name)).nodup hnd
  have hnds : ((List.insertionSort fileLE
      (e1.filter fun f => f.isFile && strToLower (suffixOf f.name) == ".md")).map
        (fun f => f.name)).Nodup :=
    (((List.perm_insertionSort fileLE _).map (fun f => f.name)).nodup_iff).mpr hndf
  exact sorted_nodup_name_eq hperm
    (List.sorted_insertionSort fileLE _) (List.sorted_insertionSort fileLE _) hnds

/-- C9: the run is a deterministic function of the directory's file
set: whatever order the directory enumeration yields the entries in,
two runs over the same entries (names unique, as in a real directory)
produce the same report lines and the same exit status. -/
theorem c9_deterministic (p : String) (e1 e2 : List FileEntry) (maxLines : Int)
    (hp : e1.Perm e2) (hnd : (e1.map (fun f => f.name)).Nodup) :
    runMain (SpecDir.dir p e1) maxLines = runMain (SpecDir.dir p e2) maxLines := by
  have hload := load_perm_nodup_eq hp hnd
  simp [runMain, hload]

/-- Witness for C9: two enumeration orders of the same two entries
produce identical runs. -/
theorem c9_witness :
    runMain (SpecDir.dir "specs" [c9a, c9b]) 150 =
      runMain (SpecDir.dir "specs" [c9b, c9a]) 150 :=
  c9_deterministic "specs" [c9a, c9b] [c9b, c9a] 150 (by decide) (by decide)
